import Mathlib

/-!
Verification of the restql filter-expression core: the filter AST, the
participle grammar (modelled as a token-level recursive-descent parser with
explicit recursion fuel), the SQL query builder (`builder` package) and the
validator.  Go strings are modelled as `List Char`; Go `nil` pointers as
`Option`; the Go panic in `getPlaceholder` (slice of an empty style string)
makes the builder functions `Option`-valued.
-/

set_option linter.unusedVariables false

namespace Restql

/-- A Go string, modelled as its list of characters. -/
abbrev GoStr := List Char

/-- Shorthand turning a Lean string literal into a `GoStr`. -/
def gs (s : String) : GoStr := s.toList

/-- Decimal rendering of a `Nat`, as Go `fmt.Sprintf("%d", n)` produces. -/
def natToStr (n : Nat) : GoStr := (Nat.repr n).toList

/-- Decimal rendering of an `Int`, as Go `fmt.Sprintf("%d", n)` produces. -/
def intToStr (i : Int) : GoStr := (Int.repr i).toList

/-- Go `Operator` struct from ast.go: one boolean per comparison operator. -/
structure Operator where
  equal          : Bool := false
  notEqual       : Bool := false
  greaterOrEqual : Bool := false
  lessOrEqual    : Bool := false
  greater        : Bool := false
  less           : Bool := false
  like           : Bool := false
  ilike          : Bool := false
  notLike        : Bool := false
  inOp           : Bool := false
  notInOp        : Bool := false
  isOp           : Bool := false
deriving DecidableEq, Repr

/-- Go `NullCheck` struct from ast.go. -/
structure NullCheck where
  isNull    : Bool := false
  isNotNull : Bool := false
deriving DecidableEq, Repr

/-- Go `Boolean` struct from ast.go (`True`/`False` fields). -/
structure GoBoolean where
  t : Bool := false
  f : Bool := false
deriving DecidableEq, Repr

/-- Go `Boolean.Value()`: returns the `True` field. -/
def GoBoolean.value (b : GoBoolean) : Bool := b.t

mutual
/-- Go `OrExpr`: `And []*AndExpr` (slice elements may be nil pointers). -/
inductive OrExpr where
  | mk (and : List (Option AndExpr)) : OrExpr

/-- Go `AndExpr`: `Comparison []*Comparison`. -/
inductive AndExpr where
  | mk (comparison : List (Option Comparison)) : AndExpr

/-- Go `Comparison`: `Left *Primary; Op *Operator; Right *Value; Null *NullCheck`. -/
inductive Comparison where
  | mk (left : Option Primary) (op : Option Operator) (right : Option Value)
       (nullc : Option NullCheck) : Comparison

/-- Go `Primary`: `Field string; SubExpr *OrExpr`. -/
inductive Primary where
  | mk (field : GoStr) (subExpr : Option OrExpr) : Primary

/-- Go `Value`: a struct of five optional variants.  The `Number` (float64)
variant is carried opaquely as the literal text it was lexed from; the code
never computes with it, only passes it through to the argument list. -/
inductive Value where
  | mk (stringV : Option GoStr) (numberV : Option GoStr) (intV : Option Int)
       (booleanV : Option GoBoolean) (arrayV : Option ArrayV) : Value

/-- Go `Array`: `Values []*Value`. -/
inductive ArrayV where
  | mk (values : List (Option Value)) : ArrayV
end

/-- Go `Filter`: the AST root, `Expression *OrExpr`. -/
structure Filter where
  expression : Option OrExpr

/-- Field list of an `OrExpr`. -/
def OrExpr.and : OrExpr → List (Option AndExpr)
  | .mk l => l

/-- Field list of an `AndExpr`. -/
def AndExpr.comparison : AndExpr → List (Option Comparison)
  | .mk l => l

/-- The `Array` variant of a `Value`. -/
def Value.arrayV : Value → Option ArrayV
  | .mk _ _ _ _ a => a

/-- The element list of an `Array`. -/
def ArrayV.values : ArrayV → List (Option Value)
  | .mk vs => vs

/-- Go `Operator.String()`: canonical SQL text of an operator, following the
switch order of the source. -/
def opString (o : Operator) : GoStr :=
  if o.equal then gs ("=")
  else if o.notEqual then gs ("!=")
  else if o.greaterOrEqual then gs (">=")
  else if o.lessOrEqual then gs ("<=")
  else if o.greater then gs (">")
  else if o.less then gs ("<")
  else if o.like then gs ("LIKE")
  else if o.ilike then gs ("ILIKE")
  else if o.notLike then gs ("NOT LIKE")
  else if o.inOp then gs ("IN")
  else if o.notInOp then gs ("NOT IN")
  else if o.isOp then gs ("IS")
  else []

/-- A bound SQL argument: the Go `any` values produced by `extractValue`. -/
inductive Arg where
  | null
  | str (s : GoStr)
  | int (n : Int)
  | num (lit : GoStr)
  | bool (b : Bool)
deriving DecidableEq, Repr

/-- The single-quote character (ASCII 39). -/
def squote : Char := Char.ofNat 39

/-- The double-quote character. -/
def dquote : Char := Char.ofNat 34

/-- Go `extractValue`: turns a (possibly nil) `*Value` into a bound argument.
Checks the variants in source order String, Int, Number, Boolean; an
array-only or empty value yields Go `nil`.  A string of length at least two
whose first character is a quote has its first and last characters removed. -/
def extractValue : Option Value → Arg
  | none => .null
  | some (.mk s num i b _) =>
    match s with
    | some st =>
      if 2 ≤ st.length ∧ (st.head? = some squote ∨ st.head? = some dquote) then
        .str ((st.drop 1).dropLast)
      else .str st
    | none =>
      match i with
      | some n => .int n
      | none =>
        match num with
        | some f => .num f
        | none =>
          match b with
          | some bb => .bool bb.value
          | none => .null

/-- Go `getPlaceholder`: style `"?"` emits `?` without touching the counter;
any other style increments the counter and emits its first character followed
by the counter.  An empty non-`"?"` style panics in Go (`style[:1]` on an
empty string), modelled as `none`. -/
def getPlaceholder (style : GoStr) (cnt : Nat) : Option (GoStr × Nat) :=
  if style = gs ("?") then some (gs ("?"), cnt)
  else
    match style with
    | [] => none
    | c :: _ => some (c :: natToStr (cnt + 1), cnt + 1)

/-- Result of a builder step: SQL text, accumulated argument list, counter. -/
abbrev BuildRes := GoStr × List Arg × Nat

/-- The `IN`/`NOT IN` loop body of `buildComparison`: for each array element,
append its extracted value to the argument list and emit one placeholder. -/
def buildInList (style : GoStr) (args : List Arg) (cnt : Nat) :
    List (Option Value) → Option (List GoStr × List Arg × Nat)
  | [] => some ([], args, cnt)
  | v :: rest => do
    let (ph, c1) ← getPlaceholder style cnt
    let (phs, a2, c2) ← buildInList style (args ++ [extractValue v]) c1 rest
    pure (ph :: phs, a2, c2)

/-- The `IS NULL` / `IS NOT NULL` early returns of `buildComparison`:
`some` when the null-check branch returns, `none` when control falls through. -/
def nullRender (field : GoStr) : Option NullCheck → Option GoStr
  | none => none
  | some nc =>
    if nc.isNull then some (field ++ gs (" IS NULL"))
    else if nc.isNotNull then some (field ++ gs (" IS NOT NULL"))
    else none

mutual
/-- Go `buildOrExpr`: renders a (possibly nil) `*OrExpr`, joining the
non-empty rendered `AndExpr` parts with `" OR "` and parenthesizing when
there are at least two. -/
def buildOrExpr (style : GoStr) (args : List Arg) (cnt : Nat) :
    Option OrExpr → Option BuildRes
  | none => some ([], args, cnt)
  | some (.mk l) => do
    let (parts, a, c) ← buildOrParts style args cnt l
    match parts with
    | [] => pure ([], a, c)
    | [p] => pure (p, a, c)
    | ps => pure ('(' :: List.intercalate (gs (" OR ")) ps ++ [')'], a, c)

/-- The part-collecting loop of `buildOrExpr`: builds each `AndExpr` and
keeps the non-empty rendered strings, in order. -/
def buildOrParts (style : GoStr) (args : List Arg) (cnt : Nat) :
    List (Option AndExpr) → Option (List GoStr × List Arg × Nat)
  | [] => some ([], args, cnt)
  | a :: rest => do
    let (s, a1, c1) ← buildAndExpr style args cnt a
    let (ps, a2, c2) ← buildOrParts style a1 c1 rest
    pure ((if s = [] then ps else s :: ps), a2, c2)

/-- Go `buildAndExpr`: renders a (possibly nil) `*AndExpr`, joining the
non-empty rendered comparisons with `" AND "` and parenthesizing when there
are at least two. -/
def buildAndExpr (style : GoStr) (args : List Arg) (cnt : Nat) :
    Option AndExpr → Option BuildRes
  | none => some ([], args, cnt)
  | some (.mk l) => do
    let (parts, a, c) ← buildAndParts style args cnt l
    match parts with
    | [] => pure ([], a, c)
    | [p] => pure (p, a, c)
    | ps => pure ('(' :: List.intercalate (gs (" AND ")) ps ++ [')'], a, c)

/-- The part-collecting loop of `buildAndExpr`. -/
def buildAndParts (style : GoStr) (args : List Arg) (cnt : Nat) :
    List (Option Comparison) → Option (List GoStr × List Arg × Nat)
  | [] => some ([], args, cnt)
  | a :: rest => do
    let (s, a1, c1) ← buildComparison style args cnt a
    let (ps, a2, c2) ← buildAndParts style a1 c1 rest
    pure ((if s = [] then ps else s :: ps), a2, c2)

/-- Go `buildComparison`: renders a (possibly nil) `*Comparison`.  A
parenthesized sub-expression is rendered by recursing into `buildOrExpr`
directly; otherwise the field, null-check, and operator/value branches follow
the source order, with `IN`/`NOT IN` arrays expanding to one placeholder per
element. -/
def buildComparison (style : GoStr) (args : List Arg) (cnt : Nat) :
    Option Comparison → Option BuildRes
  | none => some ([], args, cnt)
  | some (.mk left op right nullc) =>
    match left with
    | some (.mk _ (some sub)) => buildOrExpr style args cnt (some sub)
    | _ =>
      let field : GoStr := match left with | some (.mk f _) => f | none => []
      if field = [] then some ([], args, cnt)
      else
        match nullRender field nullc with
        | some s => some (s, args, cnt)
        | none =>
          match op, right with
          | some o, some v =>
            if (o.inOp || o.notInOp) && (v.arrayV).isSome then
              match v.arrayV with
              | some arr => do
                let (phs, a, c) ← buildInList style args cnt arr.values
                pure (field ++ gs (" ") ++ opString o ++ gs (" (") ++
                        List.intercalate (gs (", ")) phs ++ gs (")"), a, c)
              | none => some ([], args, cnt)
            else do
              let value := extractValue (some v)
              let (ph, c1) ← getPlaceholder style cnt
              pure (field ++ gs (" ") ++ opString o ++ gs (" ") ++ ph,
                    args ++ [value], c1)
          | _, _ => some ([], args, cnt)
end

/-- Go `QueryBuilder` struct. -/
structure QueryBuilder where
  table            : GoStr := []
  fields           : List GoStr := []
  filter           : Option Filter := none
  sort             : List GoStr := []
  limit            : Int := 0
  offset           : Int := 0
  args             : List Arg := []
  placeholderStyle : GoStr := gs ("?")
  placeholderCount : Nat := 0

/-- Go `Where()`: resets the argument state, then renders only the WHERE
fragment of the configured filter. -/
def whereClause (qb : QueryBuilder) : Option (GoStr × List Arg) :=
  match qb.filter with
  | none => some ([], [])
  | some f =>
    match f.expression with
    | none => some ([], [])
    | some e =>
      (buildOrExpr qb.placeholderStyle [] 0 (some e)).map (fun (s, a, _) => (s, a))

/-- Rendering of one ORDER BY entry: a leading `-` means descending. -/
def orderEntry (s : GoStr) : GoStr :=
  match s with
  | '-' :: rest => rest ++ gs (" DESC")
  | _ => s ++ gs (" ASC")

/-- The part of `ToSQL` before the LIMIT clause: SELECT, FROM, WHERE and
ORDER BY, built from a freshly reset argument list and counter. -/
def sqlBase (qb : QueryBuilder) : Option (GoStr × List Arg × Nat) := do
  let selectP := gs ("SELECT ") ++
    (if qb.fields = [] then gs ("*") else List.intercalate (gs (", ")) qb.fields)
  let fromP := gs (" FROM ") ++ qb.table
  let (w, a, c) ←
    match qb.filter with
    | none => some (([] : GoStr), ([] : List Arg), 0)
    | some f =>
      match f.expression with
      | none => some (([] : GoStr), ([] : List Arg), 0)
      | some e => buildOrExpr qb.placeholderStyle [] 0 (some e)
  let whereP := if w = [] then [] else gs (" WHERE ") ++ w
  let orderP :=
    if qb.sort = [] then []
    else gs (" ORDER BY ") ++ List.intercalate (gs (", ")) (qb.sort.map orderEntry)
  pure (selectP ++ fromP ++ whereP ++ orderP, a, c)

/-- The LIMIT clause: emitted only for a strictly positive limit. -/
def limitClause (l : Int) : GoStr :=
  if 0 < l then gs (" LIMIT ") ++ intToStr l else []

/-- The OFFSET clause: emitted only for a strictly positive offset. -/
def offsetClause (o : Int) : GoStr :=
  if 0 < o then gs (" OFFSET ") ++ intToStr o else []

/-- Go `ToSQL()`: resets the argument list and placeholder counter, then
emits the full SELECT statement.  The returned builder carries the
accumulated argument state, as the Go method leaves it on the receiver. -/
def toSQL (qb : QueryBuilder) : Option (GoStr × List Arg × QueryBuilder) :=
  (sqlBase qb).map (fun (s, a, c) =>
    (s ++ limitClause qb.limit ++ offsetClause qb.offset, a,
     { qb with args := a, placeholderCount := c }))

/-! ### Chunk decomposition: the specification of placeholder/argument order

Modelled from the spec: the emitted WHERE text decomposes into a left-to-right
sequence of literal pieces and placeholders, where the argument carried by the
Nth placeholder is the Nth element of the final argument list. -/

/-- One piece of emitted SQL: literal text, or a placeholder carrying the
argument bound at its position. -/
inductive Chunk where
  | lit (s : GoStr)
  | ph (a : Arg)
deriving DecidableEq, Repr

/-- The arguments carried by the placeholders of a chunk list, in order. -/
def phArgs (cs : List Chunk) : List Arg :=
  cs.filterMap (fun c => match c with | .ph a => some a | .lit _ => none)

/-- Render a chunk list: literals verbatim, placeholders via
`getPlaceholder`, appending each placeholder argument to the argument list
at the moment its placeholder is emitted. -/
def renderChunks (style : GoStr) (args : List Arg) (cnt : Nat) :
    List Chunk → Option BuildRes
  | [] => some ([], args, cnt)
  | .lit s :: rest =>
    (renderChunks style args cnt rest).map (fun (t, a, c) => (s ++ t, a, c))
  | .ph v :: rest => do
    let (p, c1) ← getPlaceholder style cnt
    let (t, a2, c2) ← renderChunks style (args ++ [v]) c1 rest
    pure (p ++ t, a2, c2)

/-- Render a list of chunk lists sequentially, collecting the strings. -/
def renderParts (style : GoStr) (args : List Arg) (cnt : Nat) :
    List (List Chunk) → Option (List GoStr × List Arg × Nat)
  | [] => some ([], args, cnt)
  | cs :: rest => do
    let (s, a1, c1) ← renderChunks style args cnt cs
    let (ps, a2, c2) ← renderParts style a1 c1 rest
    pure (s :: ps, a2, c2)

/-- Chunk decomposition of an `IN`/`NOT IN` array: one placeholder per
element, comma-separated, each carrying the extracted element value. -/
def chunksInList (vs : List (Option Value)) : List Chunk :=
  List.intercalate [Chunk.lit (gs (", "))]
    (vs.map (fun v => [Chunk.ph (extractValue v)]))

mutual
/-- Chunk decomposition of `buildOrExpr`. -/
def chunksOr : Option OrExpr → List Chunk
  | none => []
  | some (.mk l) =>
    match chunksOrList l with
    | [] => []
    | [p] => p
    | ps => Chunk.lit (gs ("(")) ::
        List.intercalate [Chunk.lit (gs (" OR "))] ps ++ [Chunk.lit (gs (")"))]

/-- Chunk decompositions of the kept (non-empty) parts of an OR list. -/
def chunksOrList : List (Option AndExpr) → List (List Chunk)
  | [] => []
  | a :: rest =>
    let p := chunksAnd a
    let ps := chunksOrList rest
    if p = [] then ps else p :: ps

/-- Chunk decomposition of `buildAndExpr`. -/
def chunksAnd : Option AndExpr → List Chunk
  | none => []
  | some (.mk l) =>
    match chunksAndList l with
    | [] => []
    | [p] => p
    | ps => Chunk.lit (gs ("(")) ::
        List.intercalate [Chunk.lit (gs (" AND "))] ps ++ [Chunk.lit (gs (")"))]

/-- Chunk decompositions of the kept (non-empty) parts of an AND list. -/
def chunksAndList : List (Option Comparison) → List (List Chunk)
  | [] => []
  | a :: rest =>
    let p := chunksComp a
    let ps := chunksAndList rest
    if p = [] then ps else p :: ps

/-- Chunk decomposition of `buildComparison`. -/
def chunksComp : Option Comparison → List Chunk
  | none => []
  | some (.mk left op right nullc) =>
    match left with
    | some (.mk _ (some sub)) => chunksOr (some sub)
    | _ =>
      let field : GoStr := match left with | some (.mk f _) => f | none => []
      if field = [] then []
      else
        match nullRender field nullc with
        | some s => [Chunk.lit s]
        | none =>
          match op, right with
          | some o, some v =>
            if (o.inOp || o.notInOp) && (v.arrayV).isSome then
              match v.arrayV with
              | some arr =>
                Chunk.lit (field ++ gs (" ") ++ opString o ++ gs (" (")) ::
                  chunksInList arr.values ++ [Chunk.lit (gs (")"))]
              | none => []
            else
              [Chunk.lit (field ++ gs (" ") ++ opString o ++ gs (" ")),
               Chunk.ph (extractValue (some v))]
          | _, _ => []
end

/-- A chunk list whose first chunk renders to non-empty text (placeholders
always render non-empty).  All chunk decompositions satisfy this. -/
def solidHead : List Chunk → Prop
  | [] => True
  | .lit s :: _ => s ≠ []
  | .ph _ :: _ => True

/-! ### Rendering lemmas -/

theorem getPlaceholder_ne_nil {style : GoStr} {cnt : Nat} {p : GoStr} {c : Nat}
    (h : getPlaceholder style cnt = some (p, c)) : p ≠ [] := by
  unfold getPlaceholder at h
  split at h
  · simp only [Option.some.injEq, Prod.mk.injEq] at h
    rcases h with ⟨h1, _⟩
    subst h1
    simp [gs]
  · cases style with
    | nil => simp at h
    | cons hd tl =>
      simp only [Option.some.injEq, Prod.mk.injEq] at h
      rcases h with ⟨h1, _⟩
      subst h1
      simp

theorem getPlaceholder_isSome (style : GoStr) (cnt : Nat) (h : style ≠ []) :
    (getPlaceholder style cnt).isSome := by
  unfold getPlaceholder
  split
  · simp
  · cases style with
    | nil => exact absurd rfl h
    | cons hd tl => simp

theorem renderChunks_append (style : GoStr) (xs ys : List Chunk) :
    ∀ args cnt, renderChunks style args cnt (xs ++ ys) =
      (renderChunks style args cnt xs).bind (fun r =>
        (renderChunks style r.2.1 r.2.2 ys).map
          (fun t => (r.1 ++ t.1, t.2.1, t.2.2))) := by
  induction xs with
  | nil =>
    intro args cnt
    simp only [List.nil_append, renderChunks, Option.bind_eq_bind, Option.some_bind]
    cases h : renderChunks style args cnt ys with
    | none => rfl
    | some r => simp
  | cons hd tl ih =>
    intro args cnt
    cases hd with
    | lit s =>
      simp only [List.cons_append, renderChunks, List.append_eq]
      rw [ih]
      cases renderChunks style args cnt tl with
      | none => simp
      | some r =>
        obtain ⟨r1, r2, r3⟩ := r
        simp only [Option.map_some', Option.pure_def, Option.bind_eq_bind,
          Option.some_bind]
        cases renderChunks style r2 r3 ys <;> simp [List.append_assoc]
    | ph v =>
      simp only [List.cons_append, renderChunks, List.append_eq]
      cases getPlaceholder style cnt with
      | none => simp
      | some pc =>
        simp only [Option.map_some', Option.pure_def, Option.bind_eq_bind,
          Option.some_bind, ih]
        cases renderChunks style (args ++ [v]) pc.2 tl with
        | none => simp
        | some r =>
          obtain ⟨r1, r2, r3⟩ := r
          simp only [Option.map_some', Option.pure_def, Option.bind_eq_bind,
            Option.some_bind]
          cases renderChunks style r2 r3 ys <;> simp [List.append_assoc]

theorem renderChunks_args (style : GoStr) (cs : List Chunk) :
    ∀ args cnt s a c, renderChunks style args cnt cs = some (s, a, c) →
      a = args ++ phArgs cs := by
  induction cs with
  | nil =>
    intro args cnt s a c h
    simp only [renderChunks, Option.some.injEq, Prod.mk.injEq] at h
    simp [phArgs, ← h.2.1]
  | cons hd tl ih =>
    intro args cnt s a c h
    cases hd with
    | lit t =>
      simp only [renderChunks] at h
      cases h2 : renderChunks style args cnt tl with
      | none => rw [h2] at h; simp at h
      | some r =>
        obtain ⟨r1, r2, r3⟩ := r
        rw [h2] at h
        simp only [Option.map_some', Option.some.injEq, Prod.mk.injEq] at h
        have hr := ih args cnt r1 r2 r3 h2
        rw [← h.2.1]
        simpa [phArgs] using hr
    | ph v =>
      simp only [renderChunks] at h
      cases hp : getPlaceholder style cnt with
      | none => rw [hp] at h; simp at h
      | some pc =>
        rw [hp] at h
        simp only [Option.pure_def, Option.bind_eq_bind, Option.some_bind] at h
        cases h2 : renderChunks style (args ++ [v]) pc.2 tl with
        | none => rw [h2] at h; simp at h
        | some r =>
          obtain ⟨r1, r2, r3⟩ := r
          rw [h2] at h
          simp only [Option.some_bind, Option.some.injEq, Prod.mk.injEq] at h
          have hr := ih (args ++ [v]) pc.2 r1 r2 r3 h2
          rw [← h.2.1]
          simpa [phArgs, List.append_assoc] using hr

theorem renderChunks_ne_nil (style : GoStr) (cs : List Chunk)
    (hne : cs ≠ []) (hs : solidHead cs) :
    ∀ args cnt s a c, renderChunks style args cnt cs = some (s, a, c) → s ≠ [] := by
  intro args cnt s a c h
  cases cs with
  | nil => exact absurd rfl hne
  | cons hd tl =>
    cases hd with
    | lit t =>
      simp only [solidHead] at hs
      simp only [renderChunks] at h
      cases h2 : renderChunks style args cnt tl with
      | none => rw [h2] at h; simp at h
      | some r =>
        rw [h2] at h
        simp only [Option.map_some', Option.some.injEq, Prod.mk.injEq] at h
        intro hnil
        rw [← h.1] at hnil
        exact hs (List.append_eq_nil.mp hnil).1
    | ph v =>
      simp only [renderChunks] at h
      cases hp : getPlaceholder style cnt with
      | none => rw [hp] at h; simp at h
      | some pc =>
        obtain ⟨p, c1⟩ := pc
        rw [hp] at h
        simp only [Option.pure_def, Option.bind_eq_bind, Option.some_bind] at h
        cases h2 : renderChunks style (args ++ [v]) c1 tl with
        | none => rw [h2] at h; simp at h
        | some r =>
          rw [h2] at h
          simp only [Option.some_bind, Option.some.injEq, Prod.mk.injEq] at h
          intro hnil
          rw [← h.1] at hnil
          exact getPlaceholder_ne_nil hp (List.append_eq_nil.mp hnil).1

theorem renderParts_length (style : GoStr) (css : List (List Chunk)) :
    ∀ args cnt ps a c, renderParts style args cnt css = some (ps, a, c) →
      ps.length = css.length := by
  induction css with
  | nil =>
    intro args cnt ps a c h
    simp only [renderParts, Option.some.injEq, Prod.mk.injEq] at h
    simp [← h.1]
  | cons x rest ih =>
    intro args cnt ps a c h
    simp only [renderParts] at h
    cases hx : renderChunks style args cnt x with
    | none => rw [hx] at h; simp at h
    | some r =>
      obtain ⟨r1, r2, r3⟩ := r
      rw [hx] at h
      simp only [Option.pure_def, Option.bind_eq_bind, Option.some_bind] at h
      cases hp : renderParts style r2 r3 rest with
      | none => rw [hp] at h; simp at h
      | some q =>
        obtain ⟨q1, q2, q3⟩ := q
        rw [hp] at h
        simp only [Option.some_bind, Option.some.injEq, Prod.mk.injEq] at h
        have := ih r2 r3 q1 q2 q3 hp
        simp [← h.1, this]

theorem renderParts_cons (style : GoStr) (x : List Chunk) (rest : List (List Chunk))
    (args : List Arg) (cnt : Nat) :
    renderParts style args cnt (x :: rest) =
      (renderChunks style args cnt x).bind (fun r =>
        (renderParts style r.2.1 r.2.2 rest).map
          (fun q => (r.1 :: q.1, q.2.1, q.2.2))) := by
  simp only [renderParts]
  cases hx : renderChunks style args cnt x with
  | none => rfl
  | some r =>
    obtain ⟨r1, r2, r3⟩ := r
    simp only [Option.pure_def, Option.bind_eq_bind, Option.some_bind]
    cases hp : renderParts style r2 r3 rest with
    | none => rfl
    | some q => simp

theorem render_intercalate (style sep : GoStr) (css : List (List Chunk)) :
    ∀ args cnt,
      renderChunks style args cnt (List.intercalate [Chunk.lit sep] css) =
        (renderParts style args cnt css).map
          (fun r => (List.intercalate sep r.1, r.2.1, r.2.2)) := by
  induction css with
  | nil =>
    intro args cnt
    simp [List.intercalate, renderParts, renderChunks]
  | cons x rest ih =>
    intro args cnt
    cases rest with
    | nil =>
      simp only [List.intercalate, List.intersperse, List.flatten, renderParts]
      cases hx : renderChunks style args cnt x with
      | none => simp [hx]
      | some r => simp [hx, List.intercalate, List.intersperse]
    | cons y rest2 =>
      have hsplit : List.intercalate [Chunk.lit sep] (x :: y :: rest2) =
          x ++ (Chunk.lit sep :: List.intercalate [Chunk.lit sep] (y :: rest2)) := by
        simp [List.intercalate, List.intersperse]
      rw [hsplit, renderChunks_append, renderParts_cons]
      simp only [renderChunks, ih]
      cases hx : renderChunks style args cnt x with
      | none => simp
      | some r =>
        obtain ⟨r1, r2, r3⟩ := r
        simp only [Option.map_some', Option.pure_def, Option.bind_eq_bind,
          Option.some_bind]
        cases hp : renderParts style r2 r3 (y :: rest2) with
        | none => simp
        | some q =>
          obtain ⟨q1, q2, q3⟩ := q
          cases q1 with
          | nil =>
            have := renderParts_length style (y :: rest2) r2 r3 [] q2 q3 hp
            simp at this
          | cons s1 ps2 =>
            simp [List.intercalate, List.intersperse, List.append_assoc]

theorem render_wrap (style a b sep : GoStr) (css : List (List Chunk)) :
    ∀ args cnt,
      renderChunks style args cnt
          (Chunk.lit a :: (List.intercalate [Chunk.lit sep] css ++ [Chunk.lit b])) =
        (renderParts style args cnt css).map
          (fun r => (a ++ (List.intercalate sep r.1 ++ b), r.2.1, r.2.2)) := by
  intro args cnt
  simp only [renderChunks, renderChunks_append, render_intercalate]
  cases hp : renderParts style args cnt css with
  | none => simp
  | some q =>
    obtain ⟨q1, q2, q3⟩ := q
    simp [renderChunks, List.append_assoc]

theorem buildInList_singletons (style : GoStr) (vs : List (Option Value)) :
    ∀ args cnt,
      renderParts style args cnt (vs.map (fun v => [Chunk.ph (extractValue v)])) =
        (buildInList style args cnt vs).map (fun r => (r.1, r.2.1, r.2.2)) := by
  induction vs with
  | nil => intro args cnt; simp [renderParts, buildInList]
  | cons v rest ih =>
    intro args cnt
    simp only [List.map_cons, renderParts, renderChunks, buildInList]
    cases hp : getPlaceholder style cnt with
    | none => simp
    | some pc =>
      obtain ⟨p, c1⟩ := pc
      simp only [Option.map_some', Option.pure_def, Option.bind_eq_bind,
        Option.some_bind, ih]
      cases hb : buildInList style (args ++ [extractValue v]) c1 rest with
      | none => simp
      | some r => obtain ⟨r1, r2, r3⟩ := r; simp

theorem render_chunksInList (style : GoStr) (vs : List (Option Value)) :
    ∀ args cnt,
      renderChunks style args cnt (chunksInList vs) =
        (buildInList style args cnt vs).map
          (fun r => (List.intercalate (gs (", ")) r.1, r.2.1, r.2.2)) := by
  intro args cnt
  simp only [chunksInList, render_intercalate, buildInList_singletons]
  cases hb : buildInList style args cnt vs with
  | none => simp
  | some r => obtain ⟨r1, r2, r3⟩ := r; simp

theorem nullRender_ne_nil {f : GoStr} {nc : Option NullCheck} {s : GoStr}
    (hf : f ≠ []) (h : nullRender f nc = some s) : s ≠ [] := by
  cases nc with
  | none => simp [nullRender] at h
  | some n =>
    simp only [nullRender] at h
    split at h
    · simp only [Option.some.injEq] at h
      subst h
      simp [hf]
    · split at h
      · simp only [Option.some.injEq] at h
        subst h
        simp [hf]
      · simp at h

mutual

theorem buildOr_eq (e : Option OrExpr) :
    (∀ style args cnt, buildOrExpr style args cnt e =
      renderChunks style args cnt (chunksOr e)) ∧ solidHead (chunksOr e) := by
  cases e with
  | none =>
    refine ⟨fun style args cnt => ?_, ?_⟩
    · simp [buildOrExpr, chunksOr, renderChunks]
    · simp [chunksOr, solidHead]
  | some oe =>
    cases oe with
    | mk l =>
      have hl := buildOrList_eq l
      constructor
      · intro style args cnt
        simp only [buildOrExpr, chunksOr, hl.1]
        cases hcl : chunksOrList l with
        | nil => simp [renderParts, renderChunks]
        | cons p1 rest1 =>
          cases rest1 with
          | nil =>
            rw [renderParts_cons]
            cases hp : renderChunks style args cnt p1 with
            | none => simp
            | some r =>
              obtain ⟨r1, r2, r3⟩ := r
              simp [renderParts]
          | cons p2 rest2 =>
            simp only [List.cons_append, render_wrap]
            cases hp : renderParts style args cnt (p1 :: p2 :: rest2) with
            | none => simp
            | some q =>
              obtain ⟨ps, a2, c2⟩ := q
              have hlen := renderParts_length style (p1 :: p2 :: rest2)
                args cnt ps a2 c2 hp
              cases ps with
              | nil => simp at hlen
              | cons s1 ps1 =>
                cases ps1 with
                | nil => simp at hlen
                | cons s2 ps2 => simp [gs, List.append_assoc]
      · simp only [chunksOr]
        cases hcl : chunksOrList l with
        | nil => trivial
        | cons p1 rest1 =>
          cases rest1 with
          | nil => exact (hl.2 p1 (by rw [hcl]; exact List.mem_cons_self _ _)).2
          | cons p2 rest2 => simp [solidHead, gs]
termination_by sizeOf e

theorem buildOrList_eq (l : List (Option AndExpr)) :
    (∀ style args cnt, buildOrParts style args cnt l =
      renderParts style args cnt (chunksOrList l)) ∧
    (∀ cs ∈ chunksOrList l, cs ≠ [] ∧ solidHead cs) := by
  cases l with
  | nil =>
    refine ⟨fun style args cnt => ?_, ?_⟩
    · simp [buildOrParts, chunksOrList, renderParts]
    · intro cs hcs
      simp [chunksOrList] at hcs
  | cons a rest =>
    have ha := buildAnd_eq a
    have hrest := buildOrList_eq rest
    constructor
    · intro style args cnt
      simp only [buildOrParts, chunksOrList, ha.1, hrest.1]
      by_cases hc : chunksAnd a = []
      · rw [if_pos hc, hc]
        simp only [renderChunks, Option.pure_def, Option.bind_eq_bind,
          Option.some_bind, if_pos rfl]
        cases hr : renderParts style args cnt (chunksOrList rest) with
        | none => rfl
        | some q => obtain ⟨q1, q2, q3⟩ := q; simp
      · rw [if_neg hc, renderParts_cons]
        cases hra : renderChunks style args cnt (chunksAnd a) with
        | none => simp
        | some r =>
          obtain ⟨r1, r2, r3⟩ := r
          have hne : r1 ≠ [] :=
            renderChunks_ne_nil style (chunksAnd a) hc ha.2 args cnt r1 r2 r3 hra
          simp only [Option.map_some', Option.pure_def, Option.bind_eq_bind,
            Option.some_bind, if_neg hne]
          cases hr : renderParts style r2 r3 (chunksOrList rest) with
          | none => simp
          | some q => obtain ⟨q1, q2, q3⟩ := q; simp
    · intro cs hcs
      simp only [chunksOrList] at hcs
      by_cases hc : chunksAnd a = []
      · rw [if_pos hc] at hcs
        exact hrest.2 cs hcs
      · rw [if_neg hc] at hcs
        cases hcs with
        | head => exact ⟨hc, ha.2⟩
        | tail _ h => exact hrest.2 cs h
termination_by sizeOf l

theorem buildAnd_eq (a : Option AndExpr) :
    (∀ style args cnt, buildAndExpr style args cnt a =
      renderChunks style args cnt (chunksAnd a)) ∧ solidHead (chunksAnd a) := by
  cases a with
  | none =>
    refine ⟨fun style args cnt => ?_, ?_⟩
    · simp [buildAndExpr, chunksAnd, renderChunks]
    · simp [chunksAnd, solidHead]
  | some ae =>
    cases ae with
    | mk l =>
      have hl := buildAndList_eq l
      constructor
      · intro style args cnt
        simp only [buildAndExpr, chunksAnd, hl.1]
        cases hcl : chunksAndList l with
        | nil => simp [renderParts, renderChunks]
        | cons p1 rest1 =>
          cases rest1 with
          | nil =>
            rw [renderParts_cons]
            cases hp : renderChunks style args cnt p1 with
            | none => simp
            | some r =>
              obtain ⟨r1, r2, r3⟩ := r
              simp [renderParts]
          | cons p2 rest2 =>
            simp only [List.cons_append, render_wrap]
            cases hp : renderParts style args cnt (p1 :: p2 :: rest2) with
            | none => simp
            | some q =>
              obtain ⟨ps, a2, c2⟩ := q
              have hlen := renderParts_length style (p1 :: p2 :: rest2)
                args cnt ps a2 c2 hp
              cases ps with
              | nil => simp at hlen
              | cons s1 ps1 =>
                cases ps1 with
                | nil => simp at hlen
                | cons s2 ps2 => simp [gs, List.append_assoc]
      · simp only [chunksAnd]
        cases hcl : chunksAndList l with
        | nil => trivial
        | cons p1 rest1 =>
          cases rest1 with
          | nil => exact (hl.2 p1 (by rw [hcl]; exact List.mem_cons_self _ _)).2
          | cons p2 rest2 => simp [solidHead, gs]
termination_by sizeOf a

theorem buildAndList_eq (l : List (Option Comparison)) :
    (∀ style args cnt, buildAndParts style args cnt l =
      renderParts style args cnt (chunksAndList l)) ∧
    (∀ cs ∈ chunksAndList l, cs ≠ [] ∧ solidHead cs) := by
  cases l with
  | nil =>
    refine ⟨fun style args cnt => ?_, ?_⟩
    · simp [buildAndParts, chunksAndList, renderParts]
    · intro cs hcs
      simp [chunksAndList] at hcs
  | cons a rest =>
    have ha := buildComp_eq a
    have hrest := buildAndList_eq rest
    constructor
    · intro style args cnt
      simp only [buildAndParts, chunksAndList, ha.1, hrest.1]
      by_cases hc : chunksComp a = []
      · rw [if_pos hc, hc]
        simp only [renderChunks, Option.pure_def, Option.bind_eq_bind,
          Option.some_bind, if_pos rfl]
        cases hr : renderParts style args cnt (chunksAndList rest) with
        | none => rfl
        | some q => obtain ⟨q1, q2, q3⟩ := q; simp
      · rw [if_neg hc, renderParts_cons]
        cases hra : renderChunks style args cnt (chunksComp a) with
        | none => simp
        | some r =>
          obtain ⟨r1, r2, r3⟩ := r
          have hne : r1 ≠ [] :=
            renderChunks_ne_nil style (chunksComp a) hc ha.2 args cnt r1 r2 r3 hra
          simp only [Option.map_some', Option.pure_def, Option.bind_eq_bind,
            Option.some_bind, if_neg hne]
          cases hr : renderParts style r2 r3 (chunksAndList rest) with
          | none => simp
          | some q => obtain ⟨q1, q2, q3⟩ := q; simp
    · intro cs hcs
      simp only [chunksAndList] at hcs
      by_cases hc : chunksComp a = []
      · rw [if_pos hc] at hcs
        exact hrest.2 cs hcs
      · rw [if_neg hc] at hcs
        cases hcs with
        | head => exact ⟨hc, ha.2⟩
        | tail _ h => exact hrest.2 cs h
termination_by sizeOf l

theorem buildComp_eq (c : Option Comparison) :
    (∀ style args cnt, buildComparison style args cnt c =
      renderChunks style args cnt (chunksComp c)) ∧ solidHead (chunksComp c) := by
  cases c with
  | none =>
    refine ⟨fun style args cnt => ?_, ?_⟩
    · simp [buildComparison, chunksComp, renderChunks]
    · simp [chunksComp, solidHead]
  | some cc =>
    cases cc with
    | mk left op right nullc =>
      cases left with
      | none =>
        refine ⟨fun style args cnt => ?_, ?_⟩
        · simp [buildComparison.eq_def, chunksComp.eq_def, renderChunks]
        · simp [chunksComp.eq_def, solidHead]
      | some prim =>
        cases prim with
        | mk f sub =>
          cases sub with
          | some s0 =>
            have hsub := buildOr_eq (some s0)
            refine ⟨fun style args cnt => ?_, ?_⟩
            · simp only [buildComparison, chunksComp]
              exact hsub.1 style args cnt
            · simpa only [chunksComp] using hsub.2
          | none =>
            by_cases hf : f = []
            · subst hf
              refine ⟨fun style args cnt => ?_, ?_⟩
              · simp [buildComparison.eq_def, chunksComp.eq_def, renderChunks]
              · simp [chunksComp.eq_def, solidHead]
            · cases hnr : nullRender f nullc with
              | some s =>
                refine ⟨fun style args cnt => ?_, ?_⟩
                · simp [buildComparison.eq_def, chunksComp.eq_def, hf, hnr,
                    renderChunks]
                · have hs := nullRender_ne_nil hf hnr
                  simp [chunksComp.eq_def, hf, hnr, solidHead, hs]
              | none =>
                cases op with
                | none =>
                  refine ⟨fun style args cnt => ?_, ?_⟩
                  · simp [buildComparison.eq_def, chunksComp.eq_def, hf, hnr,
                      renderChunks]
                  · simp [chunksComp.eq_def, hf, hnr, solidHead]
                | some o =>
                  cases right with
                  | none =>
                    refine ⟨fun style args cnt => ?_, ?_⟩
                    · simp [buildComparison.eq_def, chunksComp.eq_def, hf, hnr,
                        renderChunks]
                    · simp [chunksComp.eq_def, hf, hnr, solidHead]
                  | some v =>
                    cases harr : v.arrayV with
                    | some arr =>
                      cases hop : (o.inOp || o.notInOp) with
                      | true =>
                        refine ⟨fun style args cnt => ?_, ?_⟩
                        · simp only [buildComparison.eq_def, chunksComp.eq_def,
                            chunksInList]
                          simp [hf, hnr, harr, hop]
                          simp only [List.cons_append, render_wrap,
                            buildInList_singletons]
                          cases hb : buildInList style args cnt arr.values with
                          | none => simp
                          | some r =>
                            obtain ⟨r1, r2, r3⟩ := r
                            simp [List.append_assoc]
                        · simp only [chunksComp.eq_def]
                          simp [hf, hnr, harr, hop, solidHead]
                      | false =>
                        refine ⟨fun style args cnt => ?_, ?_⟩
                        · simp only [buildComparison.eq_def, chunksComp.eq_def]
                          simp [hf, hnr, harr, hop, renderChunks]
                        · simp only [chunksComp.eq_def]
                          simp [hf, hnr, harr, hop, solidHead]
                    | none =>
                      refine ⟨fun style args cnt => ?_, ?_⟩
                      · simp only [buildComparison.eq_def, chunksComp.eq_def]
                        simp [hf, hnr, harr, renderChunks]
                      · simp only [chunksComp.eq_def]
                        simp [hf, hnr, harr, solidHead]
termination_by sizeOf c

end

/-! ### Totality and builder-state lemmas -/

theorem renderChunks_total (style : GoStr) (hs : style ≠ []) (cs : List Chunk) :
    ∀ args cnt, (renderChunks style args cnt cs).isSome := by
  induction cs with
  | nil => intro args cnt; simp [renderChunks]
  | cons hd tl ih =>
    intro args cnt
    cases hd with
    | lit s =>
      obtain ⟨r, hr⟩ := Option.isSome_iff_exists.mp (ih args cnt)
      simp [renderChunks, hr]
    | ph v =>
      obtain ⟨pc, hpc⟩ :=
        Option.isSome_iff_exists.mp (getPlaceholder_isSome style cnt hs)
      obtain ⟨r, hr⟩ := Option.isSome_iff_exists.mp (ih (args ++ [v]) pc.2)
      simp [renderChunks, hpc, hr]

theorem buildOrExpr_total (style : GoStr) (hs : style ≠ []) (e : Option OrExpr)
    (args : List Arg) (cnt : Nat) : (buildOrExpr style args cnt e).isSome := by
  rw [(buildOr_eq e).1 style args cnt]
  exact renderChunks_total style hs (chunksOr e) args cnt

theorem sqlBase_total (qb : QueryBuilder) (h : qb.placeholderStyle ≠ []) :
    (sqlBase qb).isSome := by
  unfold sqlBase
  cases hf : qb.filter with
  | none => simp [hf]
  | some f =>
    cases he : f.expression with
    | none => simp [hf, he]
    | some e =>
      obtain ⟨r, hr⟩ := Option.isSome_iff_exists.mp
        (buildOrExpr_total qb.placeholderStyle h (some e) [] 0)
      simp [hf, he, hr]

theorem toSQL_total (qb : QueryBuilder) (h : qb.placeholderStyle ≠ []) :
    (toSQL qb).isSome := by
  obtain ⟨r, hr⟩ := Option.isSome_iff_exists.mp (sqlBase_total qb h)
  simp [toSQL, hr]

/-- The Go-visible output of `ToSQL`: the SQL text and the argument list. -/
def toSQLOut (qb : QueryBuilder) : Option (GoStr × List Arg) :=
  (toSQL qb).map (fun r => (r.1, r.2.1))

theorem sqlBase_state_blind (qb : QueryBuilder) (A : List Arg) (C : Nat) :
    sqlBase { qb with args := A, placeholderCount := C } = sqlBase qb := by
  cases qb
  rfl

theorem toSQL_idem (qb : QueryBuilder) (s : GoStr) (a : List Arg)
    (qb' : QueryBuilder) (h : toSQL qb = some (s, a, qb')) :
    toSQL qb' = some (s, a, qb') := by
  cases hb : sqlBase qb with
  | none => rw [toSQL, hb] at h; simp at h
  | some r =>
    obtain ⟨rs, ra, rc⟩ := r
    rw [toSQL, hb] at h
    simp only [Option.map_some', Option.some.injEq, Prod.mk.injEq] at h
    obtain ⟨hs, ha, hq⟩ := h
    have hsb : sqlBase qb' = some (rs, ra, rc) := by
      rw [← hq, sqlBase_state_blind, hb]
    have hlim : qb'.limit = qb.limit := by rw [← hq]
    have hoff : qb'.offset = qb.offset := by rw [← hq]
    rw [toSQL, hsb]
    simp only [Option.map_some', Option.some.injEq, Prod.mk.injEq, hlim, hoff]
    refine ⟨hs, ha, ?_⟩
    rw [← hq]

/-! ### Lexer

The participle `SimpleRule` lexer of ast.go: at each position the rules
whitespace, Float, Int, String, Ident, Operators, Punct are tried in order,
each matching greedily. -/

/-- Go regexp whitespace class used by the lexer rule (RE2 `\s`). -/
def isWS (c : Char) : Bool :=
  c = ' ' || c = Char.ofNat 9 || c = Char.ofNat 10 || c = Char.ofNat 12 ||
    c = Char.ofNat 13

/-- ASCII digit test, as in the lexer regular expressions. -/
def isDigitCh (c : Char) : Bool := '0' ≤ c && c ≤ '9'

/-- First character of an identifier: `[a-zA-Z_]`. -/
def isIdentStart (c : Char) : Bool :=
  ('a' ≤ c && c ≤ 'z') || ('A' ≤ c && c ≤ 'Z') || c = '_'

/-- Later character of an identifier: `[a-zA-Z0-9_]`. -/
def isIdentCont (c : Char) : Bool := isIdentStart c || isDigitCh c

/-- One lexer token with its raw text (the grammar matches literals against
the raw text, and captures `@Float`, `@Int`, `@String`, `@Ident` by type). -/
inductive Token where
  | float (lit : GoStr)
  | int (lit : GoStr)
  | str (lit : GoStr)
  | ident (s : GoStr)
  | op (s : GoStr)
  | punct (s : GoStr)
deriving DecidableEq, Repr

/-- The `Float` rule: `[-+]?\d+\.\d+`. -/
def tryFloat (cs : List Char) : Option (Token × List Char) :=
  let sp : GoStr × List Char :=
    match cs with
    | c :: t => if c = '-' ∨ c = '+' then ([c], t) else ([], cs)
    | [] => ([], cs)
  let d1 := sp.2.takeWhile isDigitCh
  let cs2 := sp.2.dropWhile isDigitCh
  if d1 = [] then none
  else
    match cs2 with
    | '.' :: cs3 =>
      let d2 := cs3.takeWhile isDigitCh
      let cs4 := cs3.dropWhile isDigitCh
      if d2 = [] then none
      else some (.float (sp.1 ++ d1 ++ '.' :: d2), cs4)
    | _ => none

/-- The `Int` rule: `[-+]?\d+`. -/
def tryInt (cs : List Char) : Option (Token × List Char) :=
  let sp : GoStr × List Char :=
    match cs with
    | c :: t => if c = '-' ∨ c = '+' then ([c], t) else ([], cs)
    | [] => ([], cs)
  let d1 := sp.2.takeWhile isDigitCh
  let cs2 := sp.2.dropWhile isDigitCh
  if d1 = [] then none else some (.int (sp.1 ++ d1), cs2)

/-- The `String` rule: a quoted span with no escape mechanism; the raw text
keeps its delimiting quotes. -/
def tryStr (cs : List Char) : Option (Token × List Char) :=
  match cs with
  | c :: rest =>
    if c = squote ∨ c = dquote then
      let body := rest.takeWhile (fun x => ¬x = c)
      match rest.dropWhile (fun x => ¬x = c) with
      | _ :: r2 => some (.str (c :: body ++ [c]), r2)
      | [] => none
    else none
  | [] => none

/-- The `Ident` rule: `[a-zA-Z_][a-zA-Z0-9_]*`. -/
def tryIdent (cs : List Char) : Option (Token × List Char) :=
  match cs with
  | c :: rest =>
    if isIdentStart c then
      some (.ident (c :: rest.takeWhile isIdentCont), rest.dropWhile isIdentCont)
    else none
  | [] => none

/-- The `Operators` rule, alternatives in source order
`>=|<=|!=|<>|&&|\|\||=|>|<`. -/
def tryOp (cs : List Char) : Option (Token × List Char) :=
  match cs with
  | '>' :: '=' :: r => some (.op (gs (">=")), r)
  | '<' :: '=' :: r => some (.op (gs ("<=")), r)
  | '!' :: '=' :: r => some (.op (gs ("!=")), r)
  | '<' :: '>' :: r => some (.op (gs ("<>")), r)
  | '&' :: '&' :: r => some (.op (gs ("&&")), r)
  | '|' :: '|' :: r => some (.op (gs ("||")), r)
  | '=' :: r => some (.op (gs ("=")), r)
  | '>' :: r => some (.op (gs (">")), r)
  | '<' :: r => some (.op (gs ("<")), r)
  | _ => none

/-- The `Punct` rule: `[(),]`. -/
def tryPunct (cs : List Char) : Option (Token × List Char) :=
  match cs with
  | '(' :: r => some (.punct (gs ("(")), r)
  | ')' :: r => some (.punct (gs (")")), r)
  | ',' :: r => some (.punct (gs (",")), r)
  | _ => none

/-- The tokenizer loop: rules in source order, whitespace elided; `none` when
no rule matches (a lexer error).  Fuel is structural; every step consumes at
least one character, so `length + 1` fuel always suffices. -/
def lexFuel : Nat → List Char → Option (List Token)
  | 0, _ => none
  | _ + 1, [] => some []
  | f + 1, c :: rest =>
    if isWS c then lexFuel f (rest.dropWhile isWS)
    else
      match tryFloat (c :: rest) with
      | some (t, r) => (lexFuel f r).map (t :: ·)
      | none =>
        match tryInt (c :: rest) with
        | some (t, r) => (lexFuel f r).map (t :: ·)
        | none =>
          match tryStr (c :: rest) with
          | some (t, r) => (lexFuel f r).map (t :: ·)
          | none =>
            match tryIdent (c :: rest) with
            | some (t, r) => (lexFuel f r).map (t :: ·)
            | none =>
              match tryOp (c :: rest) with
              | some (t, r) => (lexFuel f r).map (t :: ·)
              | none =>
                match tryPunct (c :: rest) with
                | some (t, r) => (lexFuel f r).map (t :: ·)
                | none => none

/-- Tokenize a filter source text. -/
def lex (cs : List Char) : Option (List Token) := lexFuel (cs.length + 1) cs

/-! ### Parser

Token-level recursive-descent parser following the participle grammar
annotations of ast.go, with backtracking alternatives and optional suffixes.
The `Nat` fuel is decremented once per sub-parse; it only bounds recursion
depth and any sufficiently large value gives the same result. -/

/-- Value of a decimal digit string, as Go `strconv` computes it. -/
def natOfDigits (ds : GoStr) : Nat :=
  ds.foldl (fun n c => n * 10 + (c.toNat - 48)) 0

/-- Signed integer literal conversion for `@Int` captures. -/
def strToInt (s : GoStr) : Int :=
  match s with
  | '-' :: ds => -(natOfDigits ds : Int)
  | '+' :: ds => (natOfDigits ds : Int)
  | ds => (natOfDigits ds : Int)

/-- The `Operator` alternatives of ast.go, tried in source order.  The
two-token spellings require their exact casing pairs (`NOT LIKE` or
`not like`, never mixed). -/
def parseOperator (toks : List Token) : Option (Operator × List Token) :=
  match toks with
  | .op s :: rest =>
    if s = gs ("=") then some ({ equal := true }, rest)
    else if s = gs ("!=") ∨ s = gs ("<>") then some ({ notEqual := true }, rest)
    else if s = gs (">=") then some ({ greaterOrEqual := true }, rest)
    else if s = gs ("<=") then some ({ lessOrEqual := true }, rest)
    else if s = gs (">") then some ({ greater := true }, rest)
    else if s = gs ("<") then some ({ less := true }, rest)
    else none
  | .ident s :: rest =>
    if s = gs ("LIKE") ∨ s = gs ("like") then some ({ like := true }, rest)
    else if s = gs ("ILIKE") ∨ s = gs ("ilike") then some ({ ilike := true }, rest)
    else if s = gs ("NOT") then
      match rest with
      | .ident s2 :: r2 =>
        if s2 = gs ("LIKE") then some ({ notLike := true }, r2)
        else if s2 = gs ("IN") then some ({ notInOp := true }, r2)
        else none
      | _ => none
    else if s = gs ("not") then
      match rest with
      | .ident s2 :: r2 =>
        if s2 = gs ("like") then some ({ notLike := true }, r2)
        else if s2 = gs ("in") then some ({ notInOp := true }, r2)
        else none
      | _ => none
    else if s = gs ("IN") ∨ s = gs ("in") then some ({ inOp := true }, rest)
    else if s = gs ("IS") ∨ s = gs ("is") then some ({ isOp := true }, rest)
    else none
  | _ => none

/-- The `NullCheck` alternatives of ast.go. -/
def parseNullCheck (toks : List Token) : Option (NullCheck × List Token) :=
  match toks with
  | .ident s :: rest =>
    if s = gs ("NULL") ∨ s = gs ("null") then some ({ isNull := true }, rest)
    else if s = gs ("NOT") then
      match rest with
      | .ident s2 :: r2 =>
        if s2 = gs ("NULL") then some ({ isNotNull := true }, r2) else none
      | _ => none
    else if s = gs ("not") then
      match rest with
      | .ident s2 :: r2 =>
        if s2 = gs ("null") then some ({ isNotNull := true }, r2) else none
      | _ => none
    else none
  | _ => none

mutual
/-- The `Value` alternatives: String, Float, Int, Boolean, Array. -/
def parseValue : Nat → List Token → Option (Value × List Token)
  | 0, _ => none
  | f + 1, toks =>
    match toks with
    | .str s :: rest => some (Value.mk (some s) none none none none, rest)
    | .float s :: rest => some (Value.mk none (some s) none none none, rest)
    | .int s :: rest =>
      some (Value.mk none none (some (strToInt s)) none none, rest)
    | .ident s :: rest =>
      if s = gs ("true") ∨ s = gs ("TRUE") then
        some (Value.mk none none none (some ⟨true, false⟩) none, rest)
      else if s = gs ("false") ∨ s = gs ("FALSE") then
        some (Value.mk none none none (some ⟨false, true⟩) none, rest)
      else none
    | .punct p :: rest =>
      if p = gs ("(") then
        match parseValue f rest with
        | none => none
        | some (v, r1) =>
          match parseArrayRest f r1 with
          | none => none
          | some (vs, r2) =>
            match r2 with
            | .punct q :: r3 =>
              if q = gs (")") then
                some (Value.mk none none none none
                  (some (ArrayV.mk (some v :: vs))), r3)
              else none
            | _ => none
      else none
    | _ => none

/-- The `( "," Value )*` loop of the `Array` rule. -/
def parseArrayRest : Nat → List Token → Option (List (Option Value) × List Token)
  | fuel, toks =>
    match toks with
    | .punct p :: rest =>
      if p = gs (",") then
        match fuel with
        | 0 => none
        | f + 1 =>
          match parseValue f rest with
          | none => none
          | some (v, r1) =>
            match parseArrayRest f r1 with
            | none => none
            | some (vs, r2) => some (some v :: vs, r2)
      else some ([], toks)
    | _ => some ([], toks)
end

mutual
/-- The `Primary` alternatives: a bare identifier, or a parenthesized
`OrExpr`. -/
def parsePrimary : Nat → List Token → Option (Primary × List Token)
  | 0, _ => none
  | f + 1, toks =>
    match toks with
    | .ident s :: rest => some (Primary.mk s none, rest)
    | .punct p :: rest =>
      if p = gs ("(") then
        match parseOr f rest with
        | none => none
        | some (e, r1) =>
          match r1 with
          | .punct q :: r2 =>
            if q = gs (")") then some (Primary.mk [] (some e), r2) else none
          | _ => none
      else none
    | _ => none

/-- `Comparison := Primary Operator? Value? NullCheck?`. -/
def parseComparison : Nat → List Token → Option (Comparison × List Token)
  | 0, _ => none
  | f + 1, toks =>
    match parsePrimary f toks with
    | none => none
    | some (p, r1) =>
      let or2 : Option Operator × List Token :=
        match parseOperator r1 with
        | some (o, r) => (some o, r)
        | none => (none, r1)
      let vr3 : Option Value × List Token :=
        match parseValue f or2.2 with
        | some (v, r) => (some v, r)
        | none => (none, or2.2)
      let nr4 : Option NullCheck × List Token :=
        match parseNullCheck vr3.2 with
        | some (n, r) => (some n, r)
        | none => (none, vr3.2)
      some (Comparison.mk (some p) or2.1 vr3.1 nr4.1, nr4.2)

/-- The `( "&&" Comparison )*` loop of `AndExpr`. -/
def parseAndRest : Nat → List Token →
    Option (List (Option Comparison) × List Token)
  | fuel, toks =>
    match toks with
    | .op s :: rest =>
      if s = gs ("&&") then
        match fuel with
        | 0 => none
        | f + 1 =>
          match parseComparison f rest with
          | none => none
          | some (c, r1) =>
            match parseAndRest f r1 with
            | none => none
            | some (cs, r2) => some (some c :: cs, r2)
      else some ([], toks)
    | _ => some ([], toks)

/-- `AndExpr := Comparison ( "&&" Comparison )*`. -/
def parseAnd : Nat → List Token → Option (AndExpr × List Token)
  | 0, _ => none
  | f + 1, toks =>
    match parseComparison f toks with
    | none => none
    | some (c, r1) =>
      match parseAndRest f r1 with
      | none => none
      | some (cs, r2) => some (AndExpr.mk (some c :: cs), r2)

/-- The `( "||" AndExpr )*` loop of `OrExpr`. -/
def parseOrRest : Nat → List Token →
    Option (List (Option AndExpr) × List Token)
  | fuel, toks =>
    match toks with
    | .op s :: rest =>
      if s = gs ("||") then
        match fuel with
        | 0 => none
        | f + 1 =>
          match parseAnd f rest with
          | none => none
          | some (a, r1) =>
            match parseOrRest f r1 with
            | none => none
            | some (as2, r2) => some (some a :: as2, r2)
      else some ([], toks)
    | _ => some ([], toks)

/-- `OrExpr := AndExpr ( "||" AndExpr )*`. -/
def parseOr : Nat → List Token → Option (OrExpr × List Token)
  | 0, _ => none
  | f + 1, toks =>
    match parseAnd f toks with
    | none => none
    | some (a, r1) =>
      match parseOrRest f r1 with
      | none => none
      | some (as2, r2) => some (OrExpr.mk (some a :: as2), r2)
end

/-- Parse a whole token stream as a `Filter`: the grammar must consume every
token, as participle's `ParseString` demands. -/
def parseFilterToks (toks : List Token) : Option Filter :=
  match parseOr (4 * toks.length + 8) toks with
  | some (e, []) => some ⟨some e⟩
  | _ => none

/-- The error message produced by `ParseFilter` on a grammar failure:
`fmt.Errorf("invalid filter syntax: %s (filter: %s)", err, filter)`. -/
def errMsg (diag input : GoStr) : GoStr :=
  gs ("invalid filter syntax: ") ++ diag ++ gs (" (filter: ") ++ input ++ gs (")")

/-- Go `ParseFilter`: the empty string short-circuits to success with no AST;
any other input is lexed and parsed, and a failure of either stage is wrapped
in the `invalid filter syntax` message embedding the original input.  The
grammar-engine diagnostic text is modelled opaquely. -/
def parseFilterStr (s : String) : Except GoStr (Option Filter) :=
  if s = "" then .ok none
  else
    match lex s.toList with
    | none => .error (errMsg (gs ("lexer error")) s.toList)
    | some toks =>
      match parseFilterToks toks with
      | some f => .ok (some f)
      | none => .error (errMsg (gs ("parse error")) s.toList)

/-! ### Validator (builder package validate.go) -/

/-- Go `Validator`: a query builder plus validation configuration.  The
`allowedFields` map is modelled as the list of its keys (Go map iteration
order is unspecified; the model fixes insertion order for error messages). -/
structure Validator where
  qb            : QueryBuilder
  allowedFields : List GoStr := []
  maxLimit      : Option Int := none
  maxOffset     : Option Int := none

/-- Go `WithAllowedFields`: adds fields to the whitelist. -/
def withAllowedFields (fields : List GoStr) (v : Validator) : Validator :=
  { v with allowedFields := v.allowedFields ++ fields }

/-- Go `WithMaxLimit`. -/
def withMaxLimit (m : Int) (v : Validator) : Validator :=
  { v with maxLimit := some m }

/-- Go `WithMaxOffset`. -/
def withMaxOffset (m : Int) (v : Validator) : Validator :=
  { v with maxOffset := some m }

/-- Go `Validate`: builds a validator from a builder and options. -/
def qbValidate (qb : QueryBuilder) (opts : List (Validator → Validator)) :
    Validator :=
  opts.foldl (fun v o => o v) { qb := qb }

/-- Go `isFieldAllowed`: an empty whitelist allows every field. -/
def isFieldAllowed (v : Validator) (field : GoStr) : Bool :=
  if v.allowedFields = [] then true else v.allowedFields.contains field

/-- Rendering of the allowed-fields list in error messages (Go `%v` of a
string slice). -/
def fmtFields (fields : List GoStr) : GoStr :=
  '[' :: List.intercalate (gs (" ")) fields ++ [']']

/-- The disallowed-field error message. -/
def fieldErrMsg (field : GoStr) (allowed : List GoStr) : GoStr :=
  gs ("field '") ++ field ++ gs ("' is not allowed. Allowed fields: ") ++
    fmtFields allowed

/-- The over-limit error message. -/
def limitErrMsg (l m : Int) : GoStr :=
  gs ("limit ") ++ intToStr l ++ gs (" exceeds maximum allowed limit of ") ++
    intToStr m

/-- The over-offset error message. -/
def offsetErrMsg (o m : Int) : GoStr :=
  gs ("offset ") ++ intToStr o ++ gs (" exceeds maximum allowed offset of ") ++
    intToStr m

/-- Go `validateFields`: first disallowed field wins. -/
def validateFields (v : Validator) : List GoStr → Option GoStr
  | [] => none
  | f :: rest =>
    if isFieldAllowed v f then validateFields v rest
    else some (fieldErrMsg f v.allowedFields)

/-- Go `validateSort`: strips one leading `-` before the whitelist check. -/
def validateSort (v : Validator) : List GoStr → Option GoStr
  | [] => none
  | s :: rest =>
    let field := match s with | '-' :: t => t | _ => s
    if isFieldAllowed v field then validateSort v rest
    else some (fieldErrMsg field v.allowedFields)

/-- Approximation of Go `strings.TrimSpace` used on filter field names; the
lexer never produces surrounding whitespace in an identifier. -/
def trimSpace (s : GoStr) : GoStr :=
  ((s.dropWhile isWS).reverse.dropWhile isWS).reverse

mutual
/-- Go `validateOrExpr` of the validator: first violation wins. -/
def validateOrExprV (v : Validator) : Option OrExpr → Option GoStr
  | none => none
  | some (.mk l) => validateOrListV v l

/-- Iteration over the AND groups of an OR expression. -/
def validateOrListV (v : Validator) : List (Option AndExpr) → Option GoStr
  | [] => none
  | a :: rest =>
    match validateAndExprV v a with
    | some e => some e
    | none => validateOrListV v rest

/-- Go `validateAndExpr` of the validator. -/
def validateAndExprV (v : Validator) : Option AndExpr → Option GoStr
  | none => none
  | some (.mk l) => validateAndListV v l

/-- Iteration over the comparisons of an AND expression. -/
def validateAndListV (v : Validator) : List (Option Comparison) → Option GoStr
  | [] => none
  | c :: rest =>
    match validateComparisonV v c with
    | some e => some e
    | none => validateAndListV v rest

/-- Go `validateComparison`: checks a non-empty field name (trimmed) against
the whitelist, then recurses into a parenthesized sub-expression. -/
def validateComparisonV (v : Validator) : Option Comparison → Option GoStr
  | none => none
  | some (.mk left _ _ _) =>
    match left with
    | none => none
    | some (.mk f sub) =>
      match (if f = [] then none else
        (let field := trimSpace f
         if isFieldAllowed v field then none
         else some (fieldErrMsg field v.allowedFields))) with
      | some e => some e
      | none => validateOrExprV v sub
end

/-- Go `validateFilter` of the validator. -/
def validateFilterV (v : Validator) : Option Filter → Option GoStr
  | none => none
  | some f =>
    match f.expression with
    | none => none
    | some e => validateOrExprV v (some e)

/-- Go `validateLimitOffset`: limit checked before offset, each only when a
maximum is configured. -/
def validateLimitOffset (v : Validator) : Option GoStr :=
  match v.maxLimit with
  | some m =>
    if v.qb.limit > m then some (limitErrMsg v.qb.limit m)
    else
      match v.maxOffset with
      | some mo =>
        if v.qb.offset > mo then some (offsetErrMsg v.qb.offset mo) else none
      | none => none
  | none =>
    match v.maxOffset with
    | some mo =>
      if v.qb.offset > mo then some (offsetErrMsg v.qb.offset mo) else none
    | none => none

/-- Go `Validator.ToSQL`: the three field-whitelist passes run only when both
the corresponding input and the whitelist are non-empty; then the
limit/offset bounds; then the builder emits.  `Except.error` is a returned
validation error; the inner `Option` is the builder outcome (`none` only for
the placeholder-style panic). -/
def validatorToSQL (v : Validator) : Except GoStr (Option (GoStr × List Arg)) :=
  match (if v.qb.fields ≠ [] ∧ v.allowedFields ≠ [] then
      validateFields v v.qb.fields else none) with
  | some e => .error e
  | none =>
    match (if (v.qb.filter).isSome ∧ v.allowedFields ≠ [] then
        validateFilterV v v.qb.filter else none) with
    | some e => .error e
    | none =>
      match (if v.qb.sort ≠ [] ∧ v.allowedFields ≠ [] then
          validateSort v v.qb.sort else none) with
      | some e => .error e
      | none =>
        match validateLimitOffset v with
        | some e => .error e
        | none => .ok (toSQLOut v.qb)

/-! ### Concrete AST helpers for the claim instances -/

/-- The equality operator. -/
def opEq : Operator := { equal := true }

/-- The greater-or-equal operator. -/
def opGe : Operator := { greaterOrEqual := true }

/-- The IN operator. -/
def opIn : Operator := { inOp := true }

/-- An integer literal value. -/
def vInt (n : Int) : Value := Value.mk none none (some n) none none

/-- A string literal value (raw text, quotes included). -/
def vStr (s : String) : Value := Value.mk (some (gs s)) none none none none

/-- A field/operator/value comparison. -/
def fieldCmp (f : String) (o : Operator) (v : Value) : Comparison :=
  Comparison.mk (some (Primary.mk (gs f) none)) (some o) (some v) none

/-! ### Claims -/

/-- C1: for every filter AST the Builder renders, under any placeholder style,
the rendered WHERE text decomposes into the chunk sequence `chunksOr`, in
which the Nth placeholder (left-to-right) carries the Nth element of the
returned argument list: `buildOrExpr` equals rendering that chunk sequence,
rendering appends exactly the placeholder-carried arguments in order, and a
`Where()` call returns precisely the placeholder arguments of its filter. -/
theorem c1_argument_ordering :
    (∀ (e : Option OrExpr) (style : GoStr) (args : List Arg) (cnt : Nat),
      buildOrExpr style args cnt e = renderChunks style args cnt (chunksOr e))
    ∧ (∀ (style : GoStr) (cs : List Chunk) (args : List Arg) (cnt : Nat)
        (s : GoStr) (a : List Arg) (c : Nat),
        renderChunks style args cnt cs = some (s, a, c) → a = args ++ phArgs cs)
    ∧ (∀ (qb : QueryBuilder) (s : GoStr) (a : List Arg),
        whereClause qb = some (s, a) →
          a = phArgs (chunksOr (Option.bind qb.filter Filter.expression))) := by
  refine ⟨fun e style args cnt => (buildOr_eq e).1 style args cnt,
    fun style cs args cnt s a c h => renderChunks_args style cs args cnt s a c h,
    fun qb s a h => ?_⟩
  cases hf : qb.filter with
  | none =>
    simp only [whereClause, hf, Option.some.injEq, Prod.mk.injEq] at h
    simp [hf, ← h.2, chunksOr, phArgs]
  | some f =>
    cases he : f.expression with
    | none =>
      simp only [whereClause, hf, he, Option.some.injEq, Prod.mk.injEq] at h
      simp [hf, he, ← h.2, chunksOr, phArgs]
    | some e =>
      simp only [whereClause, hf, he] at h
      cases hb : buildOrExpr qb.placeholderStyle [] 0 (some e) with
      | none => rw [hb] at h; simp at h
      | some r =>
        obtain ⟨r1, r2, r3⟩ := r
        rw [hb] at h
        simp only [Option.map_some', Option.some.injEq, Prod.mk.injEq] at h
        rw [(buildOr_eq (some e)).1 qb.placeholderStyle [] 0] at hb
        have := renderChunks_args qb.placeholderStyle (chunksOr (some e))
          [] 0 r1 r2 r3 hb
        simp [hf, he, ← h.2, this]

/-- Witness for C1 at concrete inputs: a single placeholder chunk yields the
single carried argument, and a builder with no filter yields no arguments. -/
theorem c1_witness :
    (([Arg.int 5] : List Arg) = [] ++ phArgs [Chunk.ph (Arg.int 5)])
    ∧ (([] : List Arg) =
        phArgs (chunksOr (Option.bind ({} : QueryBuilder).filter
          Filter.expression))) :=
  ⟨c1_argument_ordering.2.1 (gs ("?")) [Chunk.ph (Arg.int 5)] [] 0
      (gs ("?")) [Arg.int 5] 0 (by rfl),
   c1_argument_ordering.2.2 {} [] [] (by rfl)⟩

/-- C2: for every token sequence of the shape `X && Y || Z` in which `X`,
`Y`, `Z` parse as single comparisons consuming exactly their own tokens, the
parser yields one OrExpr of exactly two AndExpr groups sized two and one — OR
binds looser than AND; concretely, `a=1 && b=2 || c=3` parses to that shape.
Fuel arguments are written in successor form; they only bound recursion
depth. -/
theorem sepOrNeAnd : (gs ("||") = gs ("&&")) = False := eq_false (by decide)

theorem c2_precedence :
    (∀ (d : Nat) (tx ty tz : List Token) (X Y Z : Comparison),
      parseComparison (d+1)
          (tx ++ (Token.op (gs ("&&")) :: (ty ++ (Token.op (gs ("||")) :: tz)))) =
        some (X, Token.op (gs ("&&")) :: (ty ++ (Token.op (gs ("||")) :: tz))) →
      parseComparison d (ty ++ (Token.op (gs ("||")) :: tz)) =
        some (Y, Token.op (gs ("||")) :: tz) →
      parseComparison d tz = some (Z, []) →
      parseOr (d+1+1+1)
          (tx ++ (Token.op (gs ("&&")) :: (ty ++ (Token.op (gs ("||")) :: tz)))) =
        some (OrExpr.mk [some (AndExpr.mk [some X, some Y]),
                         some (AndExpr.mk [some Z])], []))
    ∧ parseFilterStr "a=1 && b=2 || c=3" =
        .ok (some ⟨some (OrExpr.mk
          [some (AndExpr.mk [some (fieldCmp "a" opEq (vInt 1)),
                             some (fieldCmp "b" opEq (vInt 2))]),
           some (AndExpr.mk [some (fieldCmp "c" opEq (vInt 3))])])⟩) := by
  constructor
  · intro d tx ty tz X Y Z hX hY hZ
    have h1 : parseAndRest (d+1)
        (Token.op (gs ("&&")) :: (ty ++ (Token.op (gs ("||")) :: tz))) =
        some ([some Y], Token.op (gs ("||")) :: tz) := by
      simp [parseAndRest.eq_def, hY, sepOrNeAnd]
    have h2 : parseAnd (d+1+1)
        (tx ++ (Token.op (gs ("&&")) :: (ty ++ (Token.op (gs ("||")) :: tz)))) =
        some (AndExpr.mk [some X, some Y], Token.op (gs ("||")) :: tz) := by
      simp [parseAnd.eq_def, hX, h1]
    have h3 : parseAnd (d+1) tz = some (AndExpr.mk [some Z], []) := by
      simp [parseAnd.eq_def, parseAndRest.eq_def, hZ]
    have h4 : parseOrRest (d+1+1) (Token.op (gs ("||")) :: tz) =
        some ([some (AndExpr.mk [some Z])], []) := by
      simp [parseOrRest.eq_def, h3]
    simp [parseOr.eq_def, h2, h4]
  · rfl

/-- Witness for C2: the shape law applied to the tokens of
`a=1 && b=2 || c=3`, the hypotheses discharged by evaluation. -/
theorem c2_witness :
    parseOr (4+1+1+1)
        ([Token.ident (gs ("a")), Token.op (gs ("=")), Token.int (gs ("1"))] ++
          (Token.op (gs ("&&")) ::
            ([Token.ident (gs ("b")), Token.op (gs ("=")), Token.int (gs ("2"))] ++
              (Token.op (gs ("||")) ::
                [Token.ident (gs ("c")), Token.op (gs ("=")), Token.int (gs ("3"))])))) =
      some (OrExpr.mk
        [some (AndExpr.mk [some (fieldCmp "a" opEq (vInt 1)),
                           some (fieldCmp "b" opEq (vInt 2))]),
         some (AndExpr.mk [some (fieldCmp "c" opEq (vInt 3))])], []) :=
  c2_precedence.1 4
    [Token.ident (gs ("a")), Token.op (gs ("=")), Token.int (gs ("1"))]
    [Token.ident (gs ("b")), Token.op (gs ("=")), Token.int (gs ("2"))]
    [Token.ident (gs ("c")), Token.op (gs ("=")), Token.int (gs ("3"))]
    (fieldCmp "a" opEq (vInt 1)) (fieldCmp "b" opEq (vInt 2))
    (fieldCmp "c" opEq (vInt 3)) (by rfl) (by rfl) (by rfl)

/-- Helper: `buildInList` appends exactly the extracted element values, in
array order, one placeholder per element. -/
theorem buildInList_args (style : GoStr) :
    ∀ (vs : List (Option Value)) (args : List Arg) (cnt : Nat)
      (phs : List GoStr) (a : List Arg) (c : Nat),
      buildInList style args cnt vs = some (phs, a, c) →
        a = args ++ vs.map extractValue ∧ phs.length = vs.length := by
  intro vs
  induction vs with
  | nil =>
    intro args cnt phs a c h
    simp only [buildInList, Option.some.injEq, Prod.mk.injEq] at h
    simp [← h.1, ← h.2.1]
  | cons v rest ih =>
    intro args cnt phs a c h
    simp only [buildInList] at h
    cases hp : getPlaceholder style cnt with
    | none => rw [hp] at h; simp at h
    | some pc =>
      rw [hp] at h
      simp only [Option.pure_def, Option.bind_eq_bind, Option.some_bind] at h
      cases hb : buildInList style (args ++ [extractValue v]) pc.2 rest with
      | none => rw [hb] at h; simp at h
      | some q =>
        obtain ⟨q1, q2, q3⟩ := q
        rw [hb] at h
        simp only [Option.some_bind, Option.some.injEq, Prod.mk.injEq] at h
        obtain ⟨hq1, hq2, hq3⟩ := h
        have := ih (args ++ [extractValue v]) pc.2 q1 q2 q3 hb
        constructor
        · rw [← hq2, this.1]
          simp
        · rw [← hq1]
          simp [this.2]

/-- The AST of `(age>=18 && country='US') || (age>=21 && country='UK')`. -/
def c3inner1 : OrExpr :=
  OrExpr.mk [some (AndExpr.mk [some (fieldCmp "age" opGe (vInt 18)),
                               some (fieldCmp "country" opEq (vStr "'US'"))])]

/-- Second parenthesized group of the C3 filter. -/
def c3inner2 : OrExpr :=
  OrExpr.mk [some (AndExpr.mk [some (fieldCmp "age" opGe (vInt 21)),
                               some (fieldCmp "country" opEq (vStr "'UK'"))])]

/-- The parsed filter of the C3 scenario. -/
def c3ast : Filter :=
  ⟨some (OrExpr.mk
    [some (AndExpr.mk [some (Comparison.mk (some (Primary.mk [] (some c3inner1)))
      none none none)]),
     some (AndExpr.mk [some (Comparison.mk (some (Primary.mk [] (some c3inner2)))
      none none none)])])⟩

/-- The parsed filter of `category IN ('electronics','books')`. -/
def c4ast : Filter :=
  ⟨some (OrExpr.mk [some (AndExpr.mk [some (fieldCmp "category" opIn
    (Value.mk none none none none (some (ArrayV.mk
      [some (vStr "'electronics'"), some (vStr "'books'")]))))])])⟩

/-- C3: a comparison whose primary is a parenthesized sub-expression renders
by recursing into the sub-expression with no extra parentheses; AND/OR lists
with two or more kept parts are joined with the keyword separator inside
exactly one pair of parentheses; and the nested C3 filter parses and renders
to `((age >= ? AND country = ?) OR (age >= ? AND country = ?))` with
arguments `[18, "US", 21, "UK"]` in order. -/
theorem c3_nested_rendering :
    (∀ (style : GoStr) (args : List Arg) (cnt : Nat) (f : GoStr) (sub : OrExpr)
        (op : Option Operator) (right : Option Value) (nullc : Option NullCheck),
      buildComparison style args cnt
          (some (Comparison.mk (some (Primary.mk f (some sub))) op right nullc)) =
        buildOrExpr style args cnt (some sub))
    ∧ (∀ (style : GoStr) (args : List Arg) (cnt : Nat)
        (l : List (Option Comparison)) (parts : List GoStr) (a : List Arg) (c : Nat),
        buildAndParts style args cnt l = some (parts, a, c) → 2 ≤ parts.length →
        buildAndExpr style args cnt (some (AndExpr.mk l)) =
          some ('(' :: List.intercalate (gs (" AND ")) parts ++ [')'], a, c))
    ∧ (∀ (style : GoStr) (args : List Arg) (cnt : Nat)
        (l : List (Option AndExpr)) (parts : List GoStr) (a : List Arg) (c : Nat),
        buildOrParts style args cnt l = some (parts, a, c) → 2 ≤ parts.length →
        buildOrExpr style args cnt (some (OrExpr.mk l)) =
          some ('(' :: List.intercalate (gs (" OR ")) parts ++ [')'], a, c))
    ∧ parseFilterStr "(age>=18 && country='US') || (age>=21 && country='UK')" =
        .ok (some c3ast)
    ∧ whereClause { filter := some c3ast } =
        some (gs ("((age >= ? AND country = ?) OR (age >= ? AND country = ?))"),
          [Arg.int 18, Arg.str (gs ("US")), Arg.int 21, Arg.str (gs ("UK"))]) := by
  refine ⟨?_, ?_, ?_, by rfl, ?_⟩
  · intro style args cnt f sub op right nullc
    simp [buildComparison]
  · intro style args cnt l parts a c h hlen
    cases parts with
    | nil => simp at hlen
    | cons p1 rest =>
      cases rest with
      | nil => simp at hlen
      | cons p2 ps => simp [buildAndExpr, h]
  · intro style args cnt l parts a c h hlen
    cases parts with
    | nil => simp at hlen
    | cons p1 rest =>
      cases rest with
      | nil => simp at hlen
      | cons p2 ps => simp [buildOrExpr, h]
  · simp [whereClause, c3ast, c3inner1, c3inner2, fieldCmp, opGe, opEq, vInt, vStr,
      buildOrExpr, buildOrParts, buildAndExpr, buildAndParts, buildComparison.eq_def,
      nullRender, extractValue, getPlaceholder, opString, gs, List.intercalate,
      List.intersperse]
    decide

/-- Witness for C3: the general clauses applied to a concrete two-part AND
list, with the hypotheses discharged by evaluation. -/
theorem c3_witness :
    buildAndExpr (gs ("?")) [] 0
        (some (AndExpr.mk [some (fieldCmp "a" opEq (vInt 1)),
                           some (fieldCmp "b" opEq (vInt 2))])) =
      some ('(' :: List.intercalate (gs (" AND ")) [gs ("a = ?"), gs ("b = ?")] ++ [')'],
        [Arg.int 1, Arg.int 2], 0) :=
  c3_nested_rendering.2.1 (gs ("?")) [] 0
    [some (fieldCmp "a" opEq (vInt 1)), some (fieldCmp "b" opEq (vInt 2))]
    [gs ("a = ?"), gs ("b = ?")] [Arg.int 1, Arg.int 2] 0
    (by simp [buildAndParts, buildComparison.eq_def, fieldCmp, opEq, vInt,
      nullRender, extractValue, getPlaceholder, opString, gs])
    (by simp)

/-- C4: an `IN`/`NOT IN` comparison over an array renders as the field, the
canonical operator text, and a parenthesized comma-separated placeholder per
element; the element values are appended to the argument list in array order;
quoted string elements lose exactly their delimiting quote characters; and
`category IN ('electronics','books')` renders to `category IN (?, ?)` with
arguments `["electronics", "books"]`. -/
theorem c4_in_rendering :
    (∀ (style : GoStr) (args : List Arg) (cnt : Nat) (f : GoStr) (o : Operator)
        (v : Value) (arr : ArrayV),
      f ≠ [] → (o.inOp || o.notInOp) = true → v.arrayV = some arr →
      buildComparison style args cnt
          (some (Comparison.mk (some (Primary.mk f none)) (some o) (some v) none)) =
        (buildInList style args cnt arr.values).map (fun r =>
          (f ++ gs (" ") ++ opString o ++ gs (" (") ++
            List.intercalate (gs (", ")) r.1 ++ gs (")"), r.2.1, r.2.2)))
    ∧ (∀ (style : GoStr) (vs : List (Option Value)) (args : List Arg) (cnt : Nat)
        (phs : List GoStr) (a : List Arg) (c : Nat),
        buildInList style args cnt vs = some (phs, a, c) →
          a = args ++ vs.map extractValue ∧ phs.length = vs.length)
    ∧ (∀ (q : Char) (inner : GoStr), q = squote ∨ q = dquote →
        extractValue (some (Value.mk (some (q :: inner ++ [q])) none none none
          none)) = .str inner)
    ∧ parseFilterStr "category IN ('electronics','books')" = .ok (some c4ast)
    ∧ whereClause { filter := some c4ast } =
        some (gs ("category IN (?, ?)"),
          [Arg.str (gs ("electronics")), Arg.str (gs ("books"))]) := by
  refine ⟨?_, fun style vs args cnt phs a c h => buildInList_args style vs args cnt
    phs a c h, ?_, by rfl, ?_⟩
  · intro style args cnt f o v arr hf hop harr
    simp only [buildComparison.eq_def]
    simp [hf, hop, harr, nullRender]
    cases hb : buildInList style args cnt arr.values with
    | none => simp
    | some r =>
      obtain ⟨r1, r2, r3⟩ := r
      simp [List.append_assoc]
  · intro q inner hq
    have hhead : (q :: inner ++ [q]).head? = some q := by simp
    simp only [extractValue]
    rw [if_pos]
    · simp
    · constructor
      · simp
      · rcases hq with h | h <;> simp [hhead, h]
  · simp [whereClause, c4ast, fieldCmp, opIn, vStr, Value.arrayV, ArrayV.values,
      buildOrExpr, buildOrParts, buildAndExpr, buildAndParts, buildComparison.eq_def,
      buildInList, nullRender, extractValue, getPlaceholder, opString, gs,
      List.intercalate, List.intersperse]
    decide

/-- Witness for C4: the general IN clause applied to a concrete two-element
array, hypotheses discharged by evaluation. -/
theorem c4_witness :
    buildComparison (gs ("?")) [] 0
        (some (Comparison.mk (some (Primary.mk (gs ("k")) none)) (some opIn)
          (some (Value.mk none none none none
            (some (ArrayV.mk [some (vInt 1), some (vInt 2)])))) none)) =
      (buildInList (gs ("?")) [] 0 [some (vInt 1), some (vInt 2)]).map (fun r =>
        (gs ("k") ++ gs (" ") ++ opString opIn ++ gs (" (") ++
          List.intercalate (gs (", ")) r.1 ++ gs (")"), r.2.1, r.2.2)) :=
  c4_in_rendering.1 (gs ("?")) [] 0 (gs ("k")) opIn
    (Value.mk none none none none (some (ArrayV.mk [some (vInt 1), some (vInt 2)])))
    (ArrayV.mk [some (vInt 1), some (vInt 2)])
    (by decide) (by decide) (by rfl)

/-- C5: emitting twice from the same builder state is idempotent — the first
`ToSQL` call leaves the builder in a state from which a second call returns
byte-identical SQL text and an equal argument list, because the argument list
and placeholder counter are reset at the start of every call (numbered
placeholder styles included, as the style is arbitrary here). -/
theorem c5_idempotent_emission :
    ∀ (qb : QueryBuilder) (s : GoStr) (a : List Arg) (qb' : QueryBuilder),
      toSQL qb = some (s, a, qb') → toSQL qb' = some (s, a, qb') :=
  fun qb s a qb' h => toSQL_idem qb s a qb' h

/-- Witness for C5 at the default builder state. -/
theorem c5_witness :
    toSQL ({} : QueryBuilder) = some (gs ("SELECT * FROM "), [], {}) :=
  c5_idempotent_emission {} (gs ("SELECT * FROM ")) [] {} (by rfl)

/-- C6: every operator spelling variant parses to the operator whose rendered
text is the single canonical SQL spelling: `!=` and `<>` both render `!=`,
and each lowercase keyword spelling renders the same uppercase canonical text
as its uppercase spelling. -/
theorem c6_operator_fidelity :
    ((parseOperator [Token.op (gs ("="))]).map (fun r => opString r.1) =
      some (gs ("=")))
    ∧ ((parseOperator [Token.op (gs ("!="))]).map (fun r => opString r.1) =
      some (gs ("!=")))
    ∧ ((parseOperator [Token.op (gs ("<>"))]).map (fun r => opString r.1) =
      some (gs ("!=")))
    ∧ ((parseOperator [Token.op (gs (">="))]).map (fun r => opString r.1) =
      some (gs (">=")))
    ∧ ((parseOperator [Token.op (gs ("<="))]).map (fun r => opString r.1) =
      some (gs ("<=")))
    ∧ ((parseOperator [Token.op (gs (">"))]).map (fun r => opString r.1) =
      some (gs (">")))
    ∧ ((parseOperator [Token.op (gs ("<"))]).map (fun r => opString r.1) =
      some (gs ("<")))
    ∧ ((parseOperator [Token.ident (gs ("LIKE"))]).map (fun r => opString r.1) =
      some (gs ("LIKE")))
    ∧ ((parseOperator [Token.ident (gs ("like"))]).map (fun r => opString r.1) =
      some (gs ("LIKE")))
    ∧ ((parseOperator [Token.ident (gs ("ILIKE"))]).map (fun r => opString r.1) =
      some (gs ("ILIKE")))
    ∧ ((parseOperator [Token.ident (gs ("ilike"))]).map (fun r => opString r.1) =
      some (gs ("ILIKE")))
    ∧ ((parseOperator [Token.ident (gs ("NOT")), Token.ident (gs ("LIKE"))]).map
        (fun r => opString r.1) = some (gs ("NOT LIKE")))
    ∧ ((parseOperator [Token.ident (gs ("not")), Token.ident (gs ("like"))]).map
        (fun r => opString r.1) = some (gs ("NOT LIKE")))
    ∧ ((parseOperator [Token.ident (gs ("IN"))]).map (fun r => opString r.1) =
      some (gs ("IN")))
    ∧ ((parseOperator [Token.ident (gs ("in"))]).map (fun r => opString r.1) =
      some (gs ("IN")))
    ∧ ((parseOperator [Token.ident (gs ("NOT")), Token.ident (gs ("IN"))]).map
        (fun r => opString r.1) = some (gs ("NOT IN")))
    ∧ ((parseOperator [Token.ident (gs ("not")), Token.ident (gs ("in"))]).map
        (fun r => opString r.1) = some (gs ("NOT IN")))
    ∧ ((parseOperator [Token.ident (gs ("IS"))]).map (fun r => opString r.1) =
      some (gs ("IS")))
    ∧ ((parseOperator [Token.ident (gs ("is"))]).map (fun r => opString r.1) =
      some (gs ("IS"))) := by
  decide

/-- Counterexample for C7: a whitespace-only source reduces to no tokens, and
the code returns a syntax error for it, not the claimed success-with-no-AST
(only the exactly-empty string short-circuits to success). -/
theorem c7_counterexample :
    parseFilterStr "   " = .error (errMsg (gs ("parse error")) (gs ("   ")))
    ∧ (parseFilterStr "   ").isOk = false := by
  constructor <;> rfl

/-- Helper: a list is a `isPrefixOf` of itself followed by anything. -/
theorem isPrefixOf_append_self (l r : List Char) : l.isPrefixOf (l ++ r) = true := by
  induction l with
  | nil => simp [List.isPrefixOf]
  | cons c t ih => simp [List.isPrefixOf, ih]

/-- C7 (amended): `ParseFilter` succeeds with no AST exactly for the empty
string; every failure returns an error message of the fixed shape embedding
the grammar-engine diagnostic and the original input, prefixed by the stable
marker `invalid filter syntax`; and every success on a non-empty input
carries a full AST, never a partial one. -/
theorem c7_error_contract :
    parseFilterStr "" = .ok none
    ∧ (∀ (s : String) (m : GoStr), parseFilterStr s = .error m →
        ∃ diag, m = errMsg diag s.toList)
    ∧ (∀ (diag input : GoStr),
        (gs ("invalid filter syntax")).isPrefixOf (errMsg diag input) = true
        ∧ ∃ pre post, errMsg diag input = pre ++ (input ++ post))
    ∧ (∀ (s : String) (o : Option Filter), s ≠ "" → parseFilterStr s = .ok o →
        ∃ f, o = some f) := by
  refine ⟨by rfl, ?_, ?_, ?_⟩
  · intro s m h
    unfold parseFilterStr at h
    split at h
    · simp at h
    · split at h
      · simp only [Except.error.injEq] at h
        exact ⟨gs ("lexer error"), h.symm⟩
      · split at h
        · simp at h
        · simp only [Except.error.injEq] at h
          exact ⟨gs ("parse error"), h.symm⟩
  · intro diag input
    constructor
    · have hx : gs ("invalid filter syntax: ") =
          gs ("invalid filter syntax") ++ gs (": ") := by decide
      have hsplit : errMsg diag input =
          gs ("invalid filter syntax") ++ (gs (": ") ++ diag ++
            gs (" (filter: ") ++ input ++ gs (")")) := by
        simp [errMsg, hx, List.append_assoc]
      rw [hsplit]
      exact isPrefixOf_append_self _ _
    · exact ⟨gs ("invalid filter syntax: ") ++ diag ++ gs (" (filter: "),
        gs (")"), by simp [errMsg]⟩
  · intro s o hs h
    unfold parseFilterStr at h
    split at h
    · exact absurd (by assumption) hs
    · split at h
      · simp at h
      · split at h
        · simp only [Except.ok.injEq] at h
          exact ⟨_, h.symm⟩
        · simp at h

/-- Witness for C7 at a concrete malformed input. -/
theorem c7_witness :
    (∃ diag, errMsg (gs ("parse error")) (String.toList "age >> 18") =
      errMsg diag (String.toList "age >> 18"))
    ∧ ∃ f, (some f : Option Filter) =
        some ⟨some (OrExpr.mk [some (AndExpr.mk [some (fieldCmp "a" opEq
          (vInt 1))])])⟩ :=
  ⟨c7_error_contract.2.1 "age >> 18"
      (errMsg (gs ("parse error")) (String.toList "age >> 18")) (by rfl),
   by
    obtain ⟨f, hf⟩ := c7_error_contract.2.2.2 "a=1"
      (some ⟨some (OrExpr.mk [some (AndExpr.mk [some (fieldCmp "a" opEq
        (vInt 1))])])⟩) (by decide) (by rfl)
    exact ⟨f, hf.symm⟩⟩

/-- A builder configured with an empty placeholder style and a one-comparison
filter: rendering its placeholder panics in Go (`style[:1]` on ""). -/
def c8qb : QueryBuilder :=
  { placeholderStyle := [],
    filter := some ⟨some (OrExpr.mk [some (AndExpr.mk
      [some (fieldCmp "a" opEq (vInt 1))])])⟩ }

/-- Counterexample for C8: with the empty placeholder style configured and a
filter that emits a placeholder, `ToSQL` does not return normally — Go panics
on `placeholderStyle[:1]`, modelled as `none` — so emission is not total over
every configured placeholder style. -/
theorem c8_counterexample : toSQL c8qb = none := by
  simp [c8qb, toSQL, sqlBase, buildOrExpr, buildOrParts, buildAndExpr,
    buildAndParts, buildComparison.eq_def, nullRender, extractValue,
    getPlaceholder, opString, fieldCmp, opEq, vInt, gs]

/-- C8 (amended): for every builder state whose placeholder style is
non-empty (the default `?` included) — any table, field list, filter AST
including hand-constructed ones with empty groups, sort list, limit and
offset — `ToSQL` returns normally. -/
theorem c8_total_emission :
    ∀ qb : QueryBuilder, qb.placeholderStyle ≠ [] → (toSQL qb).isSome :=
  fun qb h => toSQL_total qb h

/-- Witness for C8 at the default builder state. -/
theorem c8_witness : (toSQL ({} : QueryBuilder)).isSome =  true :=
  c8_total_emission {} (by decide)

/-- C9: non-positive limits and offsets are indistinguishable from unset —
the corresponding clause renders to nothing and the emitted output equals the
output with the value zeroed — while positive values append exactly
` LIMIT <n>` / ` OFFSET <n>`; with both non-positive the emitted SQL is
exactly the base statement with no trailing clauses. -/
theorem c9_limit_offset_omission :
    (∀ l : Int, l ≤ 0 → limitClause l = [])
    ∧ (∀ l : Int, 0 < l → limitClause l = gs (" LIMIT ") ++ intToStr l)
    ∧ (∀ o : Int, o ≤ 0 → offsetClause o = [])
    ∧ (∀ o : Int, 0 < o → offsetClause o = gs (" OFFSET ") ++ intToStr o)
    ∧ (∀ qb : QueryBuilder, qb.limit ≤ 0 →
        toSQLOut qb = toSQLOut { qb with limit := 0 })
    ∧ (∀ qb : QueryBuilder, qb.offset ≤ 0 →
        toSQLOut qb = toSQLOut { qb with offset := 0 })
    ∧ (∀ (qb : QueryBuilder) (s : GoStr) (a : List Arg),
        qb.limit ≤ 0 → qb.offset ≤ 0 → toSQLOut qb = some (s, a) →
        ∃ c, sqlBase qb = some (s, a, c)) := by
  have hlim : ∀ l : Int, l ≤ 0 → limitClause l = [] := by
    intro l h
    simp [limitClause, not_lt.mpr h]
  have hoff : ∀ o : Int, o ≤ 0 → offsetClause o = [] := by
    intro o h
    simp [offsetClause, not_lt.mpr h]
  refine ⟨hlim, ?_, hoff, ?_, ?_, ?_, ?_⟩
  · intro l h
    simp [limitClause, h]
  · intro o h
    simp [offsetClause, h]
  · intro qb h
    have hsb : sqlBase { qb with limit := 0 } = sqlBase qb := by cases qb; rfl
    unfold toSQLOut toSQL
    rw [hsb]
    cases hb : sqlBase qb with
    | none => rfl
    | some r =>
      obtain ⟨r1, r2, r3⟩ := r
      simp [hlim qb.limit h, hlim 0 (by omega)]
  · intro qb h
    have hsb : sqlBase { qb with offset := 0 } = sqlBase qb := by cases qb; rfl
    unfold toSQLOut toSQL
    rw [hsb]
    cases hb : sqlBase qb with
    | none => rfl
    | some r =>
      obtain ⟨r1, r2, r3⟩ := r
      simp [hoff qb.offset h, hoff 0 (by omega)]
  · intro qb s a hl ho h
    unfold toSQLOut toSQL at h
    cases hb : sqlBase qb with
    | none => rw [hb] at h; simp at h
    | some r =>
      obtain ⟨r1, r2, r3⟩ := r
      rw [hb] at h
      simp only [Option.map_some', Option.some.injEq, Prod.mk.injEq] at h
      rw [hlim qb.limit hl, hoff qb.offset ho] at h
      exact ⟨r3, by simp [← h.1, ← h.2]⟩

/-- Witness for C9: a negative limit emits the same output as limit zero. -/
theorem c9_witness :
    toSQLOut { limit := -3 } = toSQLOut { ({ limit := -3 } : QueryBuilder)
      with limit := 0 } :=
  c9_limit_offset_omission.2.2.2.2.1 { limit := -3 } (by decide)

/-- C10: with no allowed fields configured, every field check passes — every
field name is allowed — and the validated `ToSQL` skips all three whitelist
passes, so it can return an error only from the limit or offset ceiling
checks, with the corresponding over-limit message. -/
theorem c10_no_allowed_fields :
    ∀ v : Validator, v.allowedFields = [] →
      (∀ f, isFieldAllowed v f = true)
      ∧ validatorToSQL v =
          (match validateLimitOffset v with
           | some e => .error e
           | none => .ok (toSQLOut v.qb))
      ∧ (∀ e, validatorToSQL v = .error e →
          (∃ m, v.maxLimit = some m ∧ v.qb.limit > m ∧
            e = limitErrMsg v.qb.limit m) ∨
          (∃ m, v.maxOffset = some m ∧ v.qb.offset > m ∧
            e = offsetErrMsg v.qb.offset m)) := by
  intro v hv
  have h1 : ∀ f, isFieldAllowed v f = true := by
    intro f
    simp [isFieldAllowed, hv]
  have h2 : validatorToSQL v =
      (match validateLimitOffset v with
       | some e => .error e
       | none => .ok (toSQLOut v.qb)) := by
    simp [validatorToSQL, hv]
  refine ⟨h1, h2, ?_⟩
  intro e he
  rw [h2] at he
  cases hlo : validateLimitOffset v with
  | none => rw [hlo] at he; simp at he
  | some e0 =>
    rw [hlo] at he
    simp only [Except.error.injEq] at he
    subst he
    unfold validateLimitOffset at hlo
    cases hml : v.maxLimit with
    | some m =>
      simp only [hml] at hlo
      by_cases hgt : v.qb.limit > m
      · rw [if_pos hgt] at hlo
        simp only [Option.some.injEq] at hlo
        exact Or.inl ⟨m, rfl, hgt, hlo.symm⟩
      · rw [if_neg hgt] at hlo
        cases hmo : v.maxOffset with
        | some mo =>
          simp only [hmo] at hlo
          by_cases hgo : v.qb.offset > mo
          · rw [if_pos hgo] at hlo
            simp only [Option.some.injEq] at hlo
            exact Or.inr ⟨mo, rfl, hgo, hlo.symm⟩
          · rw [if_neg hgo] at hlo
            simp at hlo
        | none => simp only [hmo] at hlo; simp at hlo
    | none =>
      simp only [hml] at hlo
      cases hmo : v.maxOffset with
      | some mo =>
        simp only [hmo] at hlo
        by_cases hgo : v.qb.offset > mo
        · rw [if_pos hgo] at hlo
          simp only [Option.some.injEq] at hlo
          exact Or.inr ⟨mo, rfl, hgo, hlo.symm⟩
        · rw [if_neg hgo] at hlo
          simp at hlo
      | none => simp only [hmo] at hlo; simp at hlo

/-- Witness for C10: a validator with an empty whitelist and an exceeded
maximum limit fails with exactly the limit message. -/
theorem c10_witness :
    (∃ m, (some (3 : Int)) = some m ∧ (5 : Int) > m ∧
      limitErrMsg 5 3 = limitErrMsg 5 m) ∨
    (∃ m, (none : Option Int) = some m ∧ (0 : Int) > m ∧
      limitErrMsg 5 3 = offsetErrMsg 0 m) :=
  c10_no_allowed_fields { qb := { limit := 5 }, maxLimit := some 3 } rfl
    |>.2.2 (limitErrMsg 5 3) (by rfl)

end Restql
